import Mathlib

/-!
A verification development for the `envar` Go package (ADTMike/envar).

The package loads `KEY=VALUE` pairs from `.env` files into the process
environment and then binds environment variables to the fields of a
caller-supplied struct, converting strings to the declared field types.

We give a shallow embedding of the package:
* the process environment is an association list (`os.Setenv` updates the
  first matching entry or appends; `os.Getenv` returns `""` for an unset
  or empty-named variable, mirroring the Go `syscall.Getenv` empty-key guard);
* `load` (src/load.go) and the expansion-aware `load` variant together with
  `expandVariables` (the second source variant of the package) are modelled
  as explicit state-passing functions over an `Env`;
* `convert` (src/covert.go) is a total function into a result type that
  records successful assignment, conversion errors, unsupported-kind errors,
  and Go runtime panics arising from `reflect.Value.Set` type mismatches;
* `Bind` (src/envar.go) is the full pipeline: target validation, concurrent
  loads (modelled as a sequential fold over the requested paths — the claims
  proved here are insensitive to the file-level interleaving), error
  aggregation, and the field-binding pass.

Numeric parsing is modelled exactly for integers, unsigned integers, booleans
and duration literals; floating-point and complex literals are modelled on the
plain decimal fragment of Go's grammar with exact rational values (IEEE-754
rounding, hex floats, `inf`/`nan` forms and digit-separating underscores are
outside the scope of the claims and are not modelled).
-/

namespace Envar

/-! ## Process environment -/

/-- The process environment: an association list from names to values.
`os.Setenv` on an existing key replaces its value in place; on a new key it
appends. Lookup takes the first matching entry. -/
abbrev Env := List (String × String)

/-- First-match association lookup, `none` when the variable is unset. -/
def lookupEnv : Env → String → Option String
  | [], _ => none
  | (k', v') :: rest, k => if k' = k then some v' else lookupEnv rest k

/-- `os.Getenv`: returns the value, or `""` when the variable is unset.
the Go `syscall.Getenv` additionally returns `""` immediately for the empty
key, so an (unrepresentable on Linux anyway) empty-named entry is invisible. -/
def getenv (env : Env) (k : String) : String :=
  if k = "" then "" else (lookupEnv env k).getD ""

/-- The state update performed by a successful `os.Setenv`. -/
def setenvRaw : Env → String → String → Env
  | [], k, v => [(k, v)]
  | (k', v') :: rest, k, v =>
    if k' = k then (k, v) :: rest else (k', v') :: setenvRaw rest k v

/-- Whether `os.Setenv` succeeds: the Go `syscall.Setenv` rejects an empty key
and a key containing `'='` (NUL bytes are not representable in our `Char`
model of file contents and are omitted). -/
def setenvOk (k : String) : Bool :=
  decide (k ≠ "") && decide ('=' ∉ k.data)

/-! ## Line parsing (src/load.go)

`load` trims each line with `strings.TrimSpace`, skips blank lines and lines
starting with `#` (`strings.HasPrefix(line, "#")`), splits on the first `=`
(`strings.SplitN(line, "=", 2)`), skips lines without an `=`, and trims the
key and the value. We work on `List Char`. -/

/-- The ASCII fragment of the Go `unicode.IsSpace` (space, tab, newline,
carriage return, vertical tab, form feed). Non-ASCII Unicode space
characters are not exercised by any claim and are omitted. -/
def isSpaceGo (c : Char) : Bool :=
  c = ' ' || c = '\t' || c = '\n' || c = '\r' || c = '\x0b' || c = '\x0c'

/-- `strings.TrimSpace` on a character list. -/
def trimL (l : List Char) : List Char :=
  ((l.dropWhile isSpaceGo).reverse.dropWhile isSpaceGo).reverse

/-- `strings.TrimSpace` on strings. -/
def trimGo (s : String) : String := String.mk (trimL s.data)

/-- `strings.SplitN(s, "=", 2)`: `none` when the line has no `=`; otherwise
the part before the first `=` and everything after it. -/
def splitFirstEq : List Char → Option (List Char × List Char)
  | [] => none
  | c :: rest =>
    if c = '=' then some ([], rest)
    else (splitFirstEq rest).map (fun p => (c :: p.1, p.2))

/-- The per-line parsing rule of `load` (src/load.go lines 36–51): trim,
skip blank and `#`-comment lines, split on the first `=` (skip if absent),
trim key and value. -/
def parseLine (line : String) : Option (String × String) :=
  let l := trimL line.data
  if l.length = 0 || l.take 1 = ['#'] then none
  else
    match splitFirstEq l with
    | none => none
    | some (k, v) => some (String.mk (trimL k), String.mk (trimL v))

/-- Modelled from the wording of the spec of the parsing rule, for comparison with
`parseLine`: "trim the line; skip it if empty or if its first non-space
character is `#`; otherwise split on the first `=` only, trim the key part
and the value part"; "a non-comment, non-blank line containing no `=` is
silently skipped". -/
def parseLineSpec (line : String) : Option (String × String) :=
  match (line.data.dropWhile isSpaceGo).head? with
  | none => none
  | some c =>
    if c = '#' then none
    else
      match splitFirstEq (trimL line.data) with
      | none => none
      | some (k, v) => some (String.mk (trimL k), String.mk (trimL v))

/-! ### Parsing lemmas -/

theorem dropWhile_append_singleton {p : Char → Bool} {c : Char}
    (hc : p c = false) :
    ∀ ys : List Char, List.dropWhile p (ys ++ [c]) = List.dropWhile p ys ++ [c] := by
  intro ys
  induction ys with
  | nil => simp [List.dropWhile, hc]
  | cons y ys ih =>
    by_cases hy : p y
    · simp [List.dropWhile, hy, ih]
    · simp [List.dropWhile, hy]

/-- Right-trimming keeps the (non-space) head of a list. -/
theorem trimL_head {c : Char} {t : List Char}
    (hc : isSpaceGo c = false) :
    ((( c :: t).reverse.dropWhile isSpaceGo).reverse) = c :: ((t.reverse.dropWhile isSpaceGo).reverse) := by
  have h1 : (c :: t).reverse = t.reverse ++ [c] := by simp
  rw [h1, dropWhile_append_singleton hc]
  simp

/-- `trimL` is empty exactly when left-trimming already empties the list. -/
theorem trimL_eq_nil_iff (l : List Char) :
    trimL l = [] ↔ l.dropWhile isSpaceGo = [] := by
  unfold trimL
  cases h : l.dropWhile isSpaceGo with
  | nil => simp
  | cons c t =>
    have hc : isSpaceGo c = false := by
      have := List.head?_dropWhile_not isSpaceGo l
      rw [h] at this
      simpa using this
    rw [trimL_head hc]
    simp

/-- The head of `trimL l` is the first non-space character of `l`. -/
theorem trimL_head_eq (l : List Char) :
    (trimL l).head? = (l.dropWhile isSpaceGo).head? := by
  unfold trimL
  cases h : l.dropWhile isSpaceGo with
  | nil => simp
  | cons c t =>
    have hc : isSpaceGo c = false := by
      have := List.head?_dropWhile_not isSpaceGo l
      rw [h] at this
      simpa using this
    rw [trimL_head hc]
    simp

/-- A list contains `'='` iff `splitFirstEq` finds a split. -/
theorem splitFirstEq_eq_none_iff (l : List Char) :
    splitFirstEq l = none ↔ '=' ∉ l := by
  induction l with
  | nil => simp [splitFirstEq]
  | cons c rest ih =>
    by_cases hc : c = '='
    · subst hc; simp [splitFirstEq]
    · simp only [splitFirstEq, hc, if_false, List.mem_cons]
      cases h : splitFirstEq rest with
      | none =>
        simp only [Option.map_none']
        constructor
        · intro _ hmem
          rcases hmem with h1 | h2
          · exact hc h1.symm
          · exact (ih.mp h) h2
        · intro _; trivial
      | some p =>
        simp only [Option.map_some']
        constructor
        · intro hfalse; cases hfalse
        · intro hmem
          exfalso
          have : '=' ∉ rest := fun hm => hmem (Or.inr hm)
          rw [← ih] at this
          rw [h] at this
          cases this

/-- The split key never contains `'='` (it is the part before the first `=`). -/
theorem splitFirstEq_key_no_eq :
    ∀ (l k v : List Char), splitFirstEq l = some (k, v) → '=' ∉ k := by
  intro l
  induction l with
  | nil => intro k v h; cases h
  | cons c rest ih =>
    intro k v h
    by_cases hc : c = '='
    · subst hc
      simp [splitFirstEq] at h
      rw [h.1]
      simp
    · simp only [splitFirstEq, hc, if_false] at h
      cases hrest : splitFirstEq rest with
      | none => rw [hrest] at h; cases h
      | some p =>
        rw [hrest] at h
        simp only [Option.map_some', Option.some.injEq] at h
        injection h with h1 h2
        rw [← h1]
        intro hmem
        rcases List.mem_cons.mp hmem with h3 | h4
        · exact hc h3.symm
        · exact ih p.1 p.2 (by rw [hrest]) h4

/-- Trimming only removes characters: membership is preserved downward. -/
theorem mem_trimL {c : Char} {l : List Char} (h : c ∈ trimL l) : c ∈ l := by
  unfold trimL at h
  rw [List.mem_reverse] at h
  have h1 := (List.dropWhile_sublist (l := (l.dropWhile isSpaceGo).reverse) (p := isSpaceGo)).mem h
  rw [List.mem_reverse] at h1
  exact (List.dropWhile_sublist (l := l) (p := isSpaceGo)).mem h1

/-- The source parsing rule and the parsing rule of the specification agree. -/
theorem parseLine_eq_spec (line : String) : parseLine line = parseLineSpec line := by
  unfold parseLine parseLineSpec
  cases h : (line.data.dropWhile isSpaceGo) with
  | nil =>
    have ht : trimL line.data = [] := (trimL_eq_nil_iff _).mpr h
    rw [ht]
    simp
  | cons c t =>
    have hh : (trimL line.data).head? = some c := by
      rw [trimL_head_eq, h]
      rfl
    obtain ⟨t', htr⟩ : ∃ t', trimL line.data = c :: t' := by
      cases htr2 : trimL line.data with
      | nil => rw [htr2] at hh; cases hh
      | cons a b =>
        rw [htr2] at hh
        simp only [List.head?_cons, Option.some.injEq] at hh
        exact ⟨b, by rw [hh]⟩
    rw [htr]
    by_cases hhash : c = '#'
    · subst hhash
      simp
    · simp [hhash]

/-! ## Errors, file model, and the loader (src/load.go) -/

/-- Errors sent on the shared error channel `ce` (structured forms of the
`fmt.Errorf` messages in the source). -/
inductive GoErr
  | openErr (path : String) (msg : String)       -- "Error opening .env file ..."
  | setenvErr (key : String)                     -- "Error setting environment variable ..."
  | scanErr (path : String) (msg : String)       -- "Error reading .env file ..."
  | missingFile (path : String)                  -- "Error .env file not found: ..." (expansion variant)
  | invalidTarget (desc : String)                -- "expected a pointer to a struct, got ..."
  deriving DecidableEq, Repr

/-- What the filesystem holds at a path: missing (`os.Stat` reports
not-exist), an open failure, or readable content — a list of lines plus an
optional scanner error surfaced by `scanner.Err()` after the line loop. -/
inductive FileStatus
  | missing
  | openFail (msg : String)
  | content (lines : List String) (scanErr : Option String)

/-- One iteration of the line loop of `load` (src/load.go lines 36–63):
parse the line; on a `KEY=VALUE` pair, commit it via `os.Setenv` only when
the key is not yet in `loadedVars`, then mark it. A `some` error means the
`os.Setenv` call failed and the load aborts. -/
def processLine (env : Env) (loaded : List String) (line : String) :
    Env × List String × Option GoErr :=
  match parseLine line with
  | none => (env, loaded, none)
  | some (k, v) =>
    if k ∈ loaded then (env, loaded, none)
    else if setenvOk k then (setenvRaw env k v, k :: loaded, none)
    else (env, loaded, some (.setenvErr k))

/-- The line loop of `load`: processes lines in order, stopping at the first
`os.Setenv` failure (the Go code `return`s there). -/
def runLines (env : Env) (loaded : List String) :
    List String → Env × List String × Option GoErr
  | [] => (env, loaded, none)
  | line :: rest =>
    match processLine env loaded line with
    | (env', loaded', none) => runLines env' loaded' rest
    | (env', loaded', some e) => (env', loaded', some e)

/-- `load` (src/load.go): a missing file is only a logged warning (no channel
error); an open failure, a mid-loop `os.Setenv` failure, or a scanner error
is sent on the channel. Returns the updated environment, the updated
`loadedVars` set, and the errors this load sent. -/
def load (fs : String → FileStatus) (path : String)
    (env : Env) (loaded : List String) : Env × List String × List GoErr :=
  match fs path with
  | .missing => (env, loaded, [])
  | .openFail m => (env, loaded, [.openErr path m])
  | .content lines scanErr =>
    match runLines env loaded lines with
    | (env', loaded', some e) => (env', loaded', [e])
    | (env', loaded', none) =>
      match scanErr with
      | some m => (env', loaded', [.scanErr path m])
      | none => (env', loaded', [])

/-- The load phase of `Bind`: one `load` per path against the shared
`loadedVars` set and error channel. The goroutines interleave at file-line
granularity in Go; the claims proved here are order-insensitive, and the
model fixes one sequential order (the list order of `paths`). -/
def runLoads (fs : String → FileStatus) :
    Env → List String → List GoErr → List String → Env × List String × List GoErr
  | env, loaded, errs, [] => (env, loaded, errs)
  | env, loaded, errs, p :: ps =>
    match load fs p env loaded with
    | (env', loaded', er) => runLoads fs env' loaded' (errs ++ er) ps

/-! ## Placeholder expansion (`expandVariables`, expansion-aware source variant)

`expandVariables` runs `regexp.MustCompile` of a dollar-brace pattern
(`\$` `{` `[^}]+` `}`) through `ReplaceAllStringFunc`: the leftmost-first
matches are the segments from a `${` to the next `}` with at least one
character in between; a match's name is looked up with `os.Getenv`, and a
match whose variable is unset (or set to `""`) is left literal. Replacement
text is not rescanned within the same pass. The pass is repeated until it
produces no change — with no iteration bound, so the loop need not
terminate; we model the loop with explicit fuel, `none` standing for an
iteration count the loop has not stabilized within. -/

/-- Split at the first closing brace: the content before it and the rest
after it; `none` when no closing brace exists. -/
def splitClose : List Char → Option (List Char × List Char)
  | [] => none
  | c :: rest =>
    if c = '\x7d' then some ([], rest)
    else (splitClose rest).map (fun p => (c :: p.1, p.2))

theorem splitClose_decomp :
    ∀ (l : List Char) (p : List Char × List Char),
      splitClose l = some p → l = p.1 ++ '\x7d' :: p.2 := by
  intro l
  induction l with
  | nil => intro p h; cases h
  | cons c rest ih =>
    intro p h
    by_cases hc : c = '\x7d'
    · subst hc
      simp [splitClose] at h
      rw [← h]
      simp
    · simp only [splitClose, hc, if_false] at h
      cases hrest : splitClose rest with
      | none => rw [hrest] at h; cases h
      | some q =>
        rw [hrest] at h
        simp only [Option.map_some', Option.some.injEq] at h
        rw [← h]
        simp [ih q hrest]

theorem splitClose_length {l : List Char} {p : List Char × List Char}
    (h : splitClose l = some p) : p.2.length < l.length := by
  have := splitClose_decomp l p h
  rw [this]
  simp
  omega

/-- One pass of `ReplaceAllStringFunc` over the character list: find each
non-overlapping leftmost match `${name}` (`name` nonempty, brace-free), and
replace it by `os.Getenv(name)` unless that value is `""`, in which case the
match is kept literally; scanning resumes after the match, so replacement
text is not rescanned in this pass. When no closing brace remains, no
further match can exist and the remainder is kept. -/
def expandOnceAux (env : Env) : List Char → List Char
  | [] => []
  | '$' :: '\x7b' :: rest =>
    (match h : splitClose rest with
     | none => '$' :: '\x7b' :: rest
     | some ([], _) => '$' :: '\x7b' :: expandOnceAux env rest
     | some (c :: nm, rest') =>
       let v := getenv env (String.mk (c :: nm))
       if v = "" then '$' :: '\x7b' :: ((c :: nm) ++ '\x7d' :: expandOnceAux env rest')
       else v.data ++ expandOnceAux env rest')
  | c :: rest => c :: expandOnceAux env rest
termination_by l => l.length
decreasing_by
  · simp
    omega
  · have h2 := splitClose_length h
    simp at h2 ⊢
    omega
  · simp

/-- One substitution pass over a string. -/
def expandOnce (env : Env) (s : String) : String :=
  String.mk (expandOnceAux env s.data)

/-- The fixpoint loop of `expandVariables`: repeat the pass until it
produces no change. The Go loop carries no bound; `fuel` is the explicit
iteration budget of the model and `none` means the loop has not stabilized
within it (for a diverging input, within any budget). -/
def expandLoop (env : Env) : String → Nat → Option String
  | _, 0 => none
  | cur, fuel + 1 =>
    let next := expandOnce env cur
    if next = cur then some cur else expandLoop env next fuel

/-- `expandVariables(value)`: one initial pass, then the loop. The error
result of the Go function is always `nil` and is omitted. -/
def expandVal (env : Env) (s : String) (fuel : Nat) : Option String :=
  expandLoop env (expandOnce env s) fuel

/-- The `n`-th iterate of the substitution pass (`expandIter env s 0` is the
first pass on `s`). -/
def expandIter (env : Env) (s : String) : Nat → String
  | 0 => expandOnce env s
  | n + 1 => expandOnce env (expandIter env s n)

/-- The line loop of the expansion-aware `load` variant: like `runLines`,
but each value is expanded before the commit check. The outer `none` means
the expansion loop of some line diverged, so `load` never returns. (The
variant's "Error expanding variables" branch is unreachable, since
`expandVariables` always returns a `nil` error.) -/
def loadLinesX (fuel : Nat) (env : Env) (loaded : List String) :
    List String → Option (Env × List String × Option GoErr)
  | [] => some (env, loaded, none)
  | line :: rest =>
    match parseLine line with
    | none => loadLinesX fuel env loaded rest
    | some (k, v) =>
      match expandVal env v fuel with
      | none => none
      | some w =>
        if k ∈ loaded then loadLinesX fuel env loaded rest
        else if setenvOk k then loadLinesX fuel (setenvRaw env k w) (k :: loaded) rest
        else some (env, loaded, some (.setenvErr k))

/-! ## The converter (src/covert.go)

`convert(value string, field reflect.Value)` dispatches on `field.Kind()`.
The embedding represents the field's `reflect` type as `FieldType` and the
outcome as `ConvResult`; a `reflect.Value.Set` with a non-assignable value
is a Go runtime panic and is represented explicitly. -/

/-- Widths of the signed integer kinds (`int` is 64-bit on the platforms
Go targets here). -/
inductive IntKind | int | int8 | int16 | int32 | int64
  deriving DecidableEq, Repr

/-- Widths of the unsigned integer kinds. -/
inductive UintKind | uint | uint8 | uint16 | uint32 | uint64
  deriving DecidableEq, Repr

inductive FloatKind | float32 | float64
  deriving DecidableEq, Repr

inductive ComplexKind | complex64 | complex128
  deriving DecidableEq, Repr

/-- The element type of a slice field, as far as assignability from the
`[]string` produced by `strings.Split` is concerned: assignable exactly when
the element type is the unnamed type `string`. -/
inductive ElemType
  | stringElem
  | otherElem (name : String)
  deriving DecidableEq, Repr

/-- The declared type of a struct field, as `convert` observes it through
`field.Kind()` plus the one identity test `field.Type() ==
reflect.TypeOf(time.Duration(0))` inside the signed-integer case.
`time.Duration` has kind `int64`; a plain `int64` field is `intF .int64`.
`otherF` carries the `%s` rendering of the unrecognized kind. -/
inductive FieldType
  | stringF
  | duration
  | intF (k : IntKind)
  | uintF (k : UintKind)
  | boolF
  | floatF (k : FloatKind)
  | complexF (k : ComplexKind)
  | sliceF (elem : ElemType)
  | otherF (kindName : String)
  deriving DecidableEq, Repr

/-- A typed Go value held by a struct field. Floats and complex components
are exact rationals (see the header note on the decimal fragment). `otherV`
stands for the value of a field of a kind `convert` does not handle. -/
inductive TypedValue
  | str (s : String)
  | intV (n : Int)
  | durationV (ns : Int)
  | uintV (n : Nat)
  | boolV (b : Bool)
  | floatV (q : ℚ)
  | complexV (re im : ℚ)
  | strSliceV (xs : List String)
  | otherV (repr' : String)
  deriving DecidableEq, Repr

/-- The outcome of `convert`: a successful assignment, a conversion error
(`fmt.Errorf("failed to convert %s to %s: ...", value, target)` — carrying
the offending literal and the attempted target), the unsupported-kind error
(`"unsupported field type %s for value %s"`), or a Go runtime panic raised
by `reflect.Value.Set` on a type mismatch. -/
inductive ConvResult
  | ok (v : TypedValue)
  | convError (target : String) (literal : String)
  | unsupported (kindName : String) (literal : String)
  | panicked (msg : String)
  deriving DecidableEq, Repr

/-! ### String-to-number parsers (`strconv`, `time.ParseDuration`) -/

/-- The numeric value of a digit string (requires all-digit input). -/
def digitsToNat (l : List Char) : Nat :=
  l.foldl (fun n c => n * 10 + (c.toNat - 48)) 0

/-- Longest digit run and the remainder. -/
def spanDigits (l : List Char) : List Char × List Char :=
  (l.takeWhile Char.isDigit, l.dropWhile Char.isDigit)

/-- `strconv.ParseUint(s, 10, 64)`: base-10 digits only, range `< 2^64`
(a range failure returns a non-nil error, which is all `convert` observes). -/
def parseUint64 (s : String) : Option Nat :=
  match s.data with
  | [] => none
  | l =>
    if l.all Char.isDigit then
      let n := digitsToNat l
      if n < 2 ^ 64 then some n else none
    else none

/-- `strconv.ParseInt(s, 10, 64)`: optional sign, then digits, range-checked
against int64. -/
def parseInt64 (s : String) : Option Int :=
  let core (l : List Char) (lo : Nat) : Option Nat :=
    match l with
    | [] => none
    | _ => if l.all Char.isDigit then
             let n := digitsToNat l
             if n ≤ lo then some n else none
           else none
  match s.data with
  | '+' :: r => (core r (2 ^ 63 - 1)).map (fun n => (n : Int))
  | '-' :: r => (core r (2 ^ 63)).map (fun n => -(n : Int))
  | l => (core l (2 ^ 63 - 1)).map (fun n => (n : Int))

/-- `strconv.ParseBool`: the exact literal set accepted by Go. -/
def parseBool (s : String) : Option Bool :=
  if s = "1" ∨ s = "t" ∨ s = "T" ∨ s = "TRUE" ∨ s = "true" ∨ s = "True" then some true
  else if s = "0" ∨ s = "f" ∨ s = "F" ∨ s = "FALSE" ∨ s = "false" ∨ s = "False" then some false
  else none

/-- Mantissa of a decimal float literal: `digits [. digits]` or `. digits`,
with its exact rational value and the remainder. -/
def parseMantissa (l : List Char) : Option (ℚ × List Char) :=
  let (ip, r1) := spanDigits l
  match r1 with
  | '.' :: r2 =>
    let (fp, r3) := spanDigits r2
    if ip = [] ∧ fp = [] then none
    else some ((digitsToNat ip : ℚ) + (digitsToNat fp : ℚ) / ((10 : ℚ) ^ fp.length), r3)
  | _ => if ip = [] then none else some ((digitsToNat ip : ℚ), r1)

/-- Optional decimal exponent part closing a float literal; fails on any
trailing garbage. -/
def parseExpPart (q : ℚ) (l : List Char) : Option ℚ :=
  match l with
  | [] => some q
  | e :: r =>
    if e = 'e' ∨ e = 'E' then
      let p : Bool × List Char :=
        match r with
        | '+' :: r' => (false, r')
        | '-' :: r' => (true, r')
        | _ => (false, r)
      let (ds, r3) := spanDigits p.2
      if ds = [] ∨ r3 ≠ [] then none
      else if p.1 then some (q / (10 : ℚ) ^ digitsToNat ds)
      else some (q * (10 : ℚ) ^ digitsToNat ds)
    else none

/-- `strconv.ParseFloat(s, 64)` on the plain decimal fragment of the Go
grammar, with the exact rational value (hex floats, `inf`/`nan` and digit
separators are outside the fragment; IEEE-754 rounding is not modelled). -/
def parseFloatDec (s : String) : Option ℚ :=
  let p : Bool × List Char :=
    match s.data with
    | '+' :: r => (true, r)
    | '-' :: r => (false, r)
    | r => (true, r)
  match parseMantissa p.2 with
  | none => none
  | some (q, rest) =>
    match parseExpPart q rest with
    | none => none
    | some q' => some (if p.1 then q' else -q')

/-- Index of the last `+`/`-` usable as the separator between the real and
imaginary components: at a positive position and not the sign of an
exponent (predecessor `e`/`E`). -/
def lastSignIdx (l : List Char) : Option Nat :=
  (List.range l.length).foldl
    (fun acc i =>
      if 0 < i ∧ (l.get? i = some '+' ∨ l.get? i = some '-')
         ∧ l.get? (i - 1) ≠ some 'e' ∧ l.get? (i - 1) ≠ some 'E'
      then some i else acc)
    none

/-- `strconv.ParseComplex(s, 128)` on the decimal fragment: an optional
enclosing parenthesis pair, then `N`, `Ni`, or `N±Mi` with `N`, `M` decimal
float literals. -/
def parseComplexDec (s : String) : Option (ℚ × ℚ) :=
  let l0 := s.data
  let l :=
    match l0 with
    | '(' :: rest =>
      if rest.getLast? = some ')' then rest.dropLast else l0
    | _ => l0
  match l.getLast? with
  | some 'i' =>
    let body := l.dropLast
    (match lastSignIdx body with
     | some i =>
       match parseFloatDec (String.mk (body.take i)),
             parseFloatDec (String.mk (body.drop i)) with
       | some re, some im => some (re, im)
       | _, _ => none
     | none => (parseFloatDec (String.mk body)).map (fun im => (0, im)))
  | _ => (parseFloatDec (String.mk l)).map (fun re => (re, 0))

/-- The nanosecond scale of a duration unit literal. -/
def unitScale (u : String) : Option Int :=
  if u = "ns" then some 1
  else if u = "us" ∨ u = "µs" ∨ u = "μs" then some 1000
  else if u = "ms" then some 1000000
  else if u = "s" then some 1000000000
  else if u = "m" then some 60000000000
  else if u = "h" then some 3600000000000
  else none

/-- The unit token: the maximal run of characters that are neither digits
nor `.` (as in the scan loop of `time.ParseDuration`). -/
def spanUnit (l : List Char) : List Char × List Char :=
  (l.takeWhile (fun c => ¬ (c.isDigit ∨ c = '.')),
   l.dropWhile (fun c => ¬ (c.isDigit ∨ c = '.')))

/-- The group loop of `time.ParseDuration`: each group is an integer part,
an optional fraction, and a unit; groups accumulate in nanoseconds with an
int64 overflow check. Each group consumes at least one character, so fuel
equal to the input length always suffices; Go computes the fractional
contribution through `float64`, modelled here as the exact floor. -/
def durLoop (env : Int) : Nat → List Char → Option Int
  | 0, l => if l = [] then some env else none
  | _, [] => some env
  | fuel + 1, l =>
    let (ip, r1) := spanDigits l
    let fr : List Char × List Char :=
      match r1 with
      | '.' :: r2 => spanDigits r2
      | _ => ([], r1)
    if ip = [] ∧ fr.1 = [] then none
    else
      let (u, r3) := spanUnit fr.2
      match unitScale (String.mk u) with
      | none => none
      | some scale =>
        let add : Int := (digitsToNat ip : Int) * scale
          + ((digitsToNat fr.1 : Int) * scale) / ((10 : Int) ^ fr.1.length)
        let acc := env + add
        if acc ≤ 2 ^ 63 - 1 then durLoop acc fuel r3 else none

/-- `time.ParseDuration`: optional sign, the special literal `0`, then one
or more number–unit groups. -/
def parseDuration (s : String) : Option Int :=
  let p : Bool × List Char :=
    match s.data with
    | '-' :: r => (true, r)
    | '+' :: r => (false, r)
    | r => (false, r)
  if p.2 = ['0'] then some 0
  else if p.2 = [] then none
  else (durLoop 0 p.2.length p.2).map (fun v => if p.1 then -v else v)

/-- `strings.Split(s, ",")`. -/
def splitCommaL : List Char → List (List Char)
  | [] => [[]]
  | c :: rest =>
    if c = ',' then [] :: splitCommaL rest
    else
      match splitCommaL rest with
      | [] => [[c]]
      | g :: gs => (c :: g) :: gs

/-- `strings.Split(value, ",")` on strings. -/
def splitComma (s : String) : List String :=
  (splitCommaL s.data).map String.mk

/-- Two's-complement truncation performed by `reflect.Value.SetInt` when the
field is narrower than 64 bits. -/
def wrapInt (w : Nat) (x : Int) : Int :=
  (x + 2 ^ (w - 1)) % 2 ^ w - 2 ^ (w - 1)

/-- Truncation performed by `reflect.Value.SetUint`. -/
def wrapUint (w : Nat) (x : Nat) : Nat := x % 2 ^ w

def intWidth : IntKind → Nat
  | .int => 64 | .int8 => 8 | .int16 => 16 | .int32 => 32 | .int64 => 64

def uintWidth : UintKind → Nat
  | .uint => 64 | .uint8 => 8 | .uint16 => 16 | .uint32 => 32 | .uint64 => 64

/-- `convert` (src/covert.go): dispatch on the field kind. The slice case
executes `field.Set(reflect.ValueOf(strings.Split(value, ",")))`
unconditionally; when the field's element type is not `string` the `[]string`
argument is not assignable and `reflect.Value.Set` panics. -/
def convert (value : String) (ft : FieldType) : ConvResult :=
  match ft with
  | .stringF => .ok (.str value)
  | .duration =>
    match parseDuration value with
    | some d => .ok (.durationV d)
    | none => .convError "time.Duration" value
  | .intF k =>
    match parseInt64 value with
    | some n => .ok (.intV (wrapInt (intWidth k) n))
    | none => .convError "int" value
  | .uintF k =>
    match parseUint64 value with
    | some n => .ok (.uintV (wrapUint (uintWidth k) n))
    | none => .convError "uint" value
  | .boolF =>
    match parseBool value with
    | some b => .ok (.boolV b)
    | none => .convError "bool" value
  | .floatF _ =>
    match parseFloatDec value with
    | some q => .ok (.floatV q)
    | none => .convError "float" value
  | .complexF _ =>
    match parseComplexDec value with
    | some p => .ok (.complexV p.1 p.2)
    | none => .convError "complex" value
  | .sliceF .stringElem => .ok (.strSliceV (splitComma value))
  | .sliceF (.otherElem name) =>
    .panicked ("reflect.Set: value of type []string is not assignable to type []" ++ name)
  | .otherF kindName => .unsupported kindName value

/-! ## `Bind` (src/envar.go) -/

/-- A field of the struct of the caller, as the binding loop observes it via
reflection: its `env` tag (`""` when the tag is absent), whether
`reflect.Value.CanSet` holds (exported), its declared type, and its current
value. -/
structure StructField where
  tag : String
  canSet : Bool
  ftype : FieldType
  value : TypedValue
  deriving DecidableEq, Repr

/-- The `interface{}` argument of `Bind`, as the two reflection probes
`reflect.TypeOf(i).Kind()` and `reflect.ValueOf(i).Elem().Kind()` classify
it. `untypedNil` is the untyped `nil` interface value, for which
`reflect.TypeOf` returns the nil `Type`. -/
inductive ArgKind
  | ptrToStruct (fields : List StructField)  -- non-nil pointer to a struct
  | nilPtr (elemDesc : String)               -- typed nil pointer: `Elem()` is the invalid zero Value
  | ptrToNonStruct (elemDesc : String)       -- non-nil pointer to a non-struct
  | nonPtr (kindDesc : String)               -- not a pointer at all

inductive Arg
  | untypedNil
  | ofType (k : ArgKind)

/-- Result of the validation prologue of `Bind`. -/
inductive ValidateResult
  | panicked (msg : String)
  | invalid (desc : String)
  | okStruct (fields : List StructField)

/-- The validation prologue: `reflect.TypeOf(i).Kind() != reflect.Ptr ||
reflect.ValueOf(i).Elem().Kind() != reflect.Struct`. On the untyped nil
interface `reflect.TypeOf` returns the nil `Type`, and the `Kind()` method
call on it is a nil dereference — a runtime panic, before any check can
fail. `||` short-circuits, so `Elem()` (which would itself panic on a
non-pointer) is never reached when the kind is not `Ptr`. The error text is
`fmt.Errorf("expected a pointer to a struct, got %v", reflect.TypeOf(i))`. -/
def validateTarget : Arg → ValidateResult
  | .untypedNil =>
    .panicked "runtime error: invalid memory address or nil pointer dereference"
  | .ofType (.ptrToStruct fields) => .okStruct fields
  | .ofType (.nilPtr d) => .invalid ("expected a pointer to a struct, got *" ++ d)
  | .ofType (.ptrToNonStruct d) => .invalid ("expected a pointer to a struct, got *" ++ d)
  | .ofType (.nonPtr d) => .invalid ("expected a pointer to a struct, got " ++ d)

/-- Result of binding one field: the updated field and the warnings logged,
or a propagating runtime panic from `convert`. -/
inductive FieldResult
  | fok (f : StructField) (logs : List String)
  | fpanic (msg : String)

/-- One iteration of the binding loop (src/envar.go lines 68–86): read the
`env` tag, look the name up with `os.Getenv`, and only when the result is a
non-empty string and the field is settable call `convert`; a conversion
error is logged as a warning and the field is left unmodified. -/
def bindField (env : Env) (f : StructField) : FieldResult :=
  let envValue := getenv env f.tag
  if envValue ≠ "" then
    if f.canSet then
      match convert envValue f.ftype with
      | .ok v => .fok { f with value := v } []
      | .convError _ _ =>
        .fok f ["Warning: Could not convert env variable " ++ f.tag ++ " to field type"]
      | .unsupported _ _ =>
        .fok f ["Warning: Could not convert env variable " ++ f.tag ++ " to field type"]
      | .panicked m => .fpanic m
    else .fok f ["Warning: Field " ++ f.tag ++ " cannot be set (maybe it is unexported)"]
  else .fok f ["Warning: Environment variable " ++ f.tag ++ " not found"]

/-- Result of the whole binding pass. -/
inductive PassResult
  | panicked (msg : String)
  | done (fields : List StructField) (logs : List String)

/-- The binding loop over all fields (a panic aborts the loop). -/
def bindFields (env : Env) : List StructField → PassResult
  | [] => .done [] []
  | f :: rest =>
    match bindField env f with
    | .fpanic m => .panicked m
    | .fok f' logs =>
      match bindFields env rest with
      | .panicked m => .panicked m
      | .done fs ls => .done (f' :: fs) (logs ++ ls)

/-- The outcome of a `Bind` call: a runtime panic, or a return value
(`none` = `nil` error) together with the final process environment, the
final struct fields, and the log output. -/
inductive BindOutcome
  | panicked (msg : String)
  | ret (err : Option GoErr) (env : Env) (fields : List StructField) (logs : List String)

/-- `filepath.Join(dir, ".env")` (the additional lexical path cleaning of
`filepath.Join` only affects redundant separators and `.`/`..` segments,
which no claim depends on). -/
def joinEnvFile (dir : String) : String := dir ++ "/.env"

/-- The paths `Bind` loads: the default `<cwd>/.env` when no path is given,
otherwise exactly `<p>/.env` for each given path (the default is not loaded
alongside explicit paths). -/
def bindPaths (rPath : List String) (cwd : String) : List String :=
  if rPath = [] then [joinEnvFile cwd] else rPath.map joinEnvFile

/-- The load phase of `Bind`: fresh `loadedVars` set and error channel, one
`load` per path. -/
def loadPhase (fs : String → FileStatus) (env : Env) (paths : List String) :
    Env × List String × List GoErr :=
  runLoads fs env [] [] paths

/-- The log lines `log.Println(err)` printed for collected load errors. -/
def errLog : GoErr → String
  | .openErr p m => "Error opening .env file " ++ p ++ ": " ++ m
  | .setenvErr k => "Error setting environment variable " ++ k
  | .scanErr p m => "Error reading .env file " ++ p ++ ": " ++ m
  | .missingFile p => "Error .env file not found: " ++ p
  | .invalidTarget d => d

/-- `Bind` (src/envar.go): validate the target, run one `load` per path
against the shared `loadedVars` set, collect the channel errors; if any
were collected, log them all and return the LAST one without binding any
field; otherwise run the binding pass and return `nil` regardless of the
warnings it logged. -/
def Bind (arg : Arg) (rPath : List String) (cwd : String)
    (fs : String → FileStatus) (env : Env) : BindOutcome :=
  match validateTarget arg with
  | .panicked m => .panicked m
  | .invalid d => .ret (some (.invalidTarget d)) env [] []
  | .okStruct fields =>
    match loadPhase fs env (bindPaths rPath cwd) with
    | (env', _, errs) =>
      match errs.getLast? with
      | some e => .ret (some e) env' fields (errs.map errLog)
      | none =>
        match bindFields env' fields with
        | .panicked m => .panicked m
        | .done fields' logs => .ret none env' fields' logs

/-! ## Helper lemmas -/

theorem lookup_setenvRaw (env : Env) (k v k' : String) :
    lookupEnv (setenvRaw env k v) k' = if k = k' then some v else lookupEnv env k' := by
  induction env with
  | nil => simp [setenvRaw, lookupEnv]
  | cons p rest ih =>
    obtain ⟨a, b⟩ := p
    by_cases hak : a = k
    · subst hak
      simp only [setenvRaw, if_pos rfl]
      by_cases hk' : a = k'
      · simp [lookupEnv, hk']
      · simp [lookupEnv, hk']
    · simp only [setenvRaw, if_neg hak]
      by_cases hk' : a = k'
      · subst hk'
        have : ¬ k = a := fun h => hak h.symm
        simp [lookupEnv, this]
      · simp [lookupEnv, hk', ih]

/-- The attempted target kind named in a `ConversionError`, per field type. -/
def errTarget : FieldType → String
  | .duration => "time.Duration"
  | .intF _ => "int"
  | .uintF _ => "uint"
  | .boolF => "bool"
  | .floatF _ => "float"
  | .complexF _ => "complex"
  | _ => ""

/-! ## Claims -/

/-- C3: for every line of a config file, `load` applies exactly the
parsing rule of the spec (`parseLine` agrees with `parseLineSpec` everywhere); a line
with no `=` parses to nothing; and a line that parses to nothing is skipped
with no state change and no error reported. -/
theorem c3_parse_rule (line : String) (env : Env) (loaded : List String) :
    parseLine line = parseLineSpec line
    ∧ ('=' ∉ line.data → parseLine line = none)
    ∧ (parseLine line = none → processLine env loaded line = (env, loaded, none)) := by
  refine ⟨parseLine_eq_spec line, ?_, ?_⟩
  · intro h
    have h2 : '=' ∉ trimL line.data := fun hm => h (mem_trimL hm)
    have h3 : splitFirstEq (trimL line.data) = none := (splitFirstEq_eq_none_iff _).mpr h2
    unfold parseLine
    simp only []
    rw [h3]
    simp
  · intro h
    unfold processLine
    rw [h]

/-- C3 witness: a non-blank, non-comment line with no `=` is silently
skipped with no error. -/
theorem c3_parse_rule_witness :
    parseLine "DB_HOST" = none
    ∧ processLine [] [] "DB_HOST" = ([], [], none) :=
  ⟨(c3_parse_rule "DB_HOST" [] []).2.1 (by decide),
   (c3_parse_rule "DB_HOST" [] []).2.2
     ((c3_parse_rule "DB_HOST" [] []).2.1 (by decide))⟩

/-- C7: conversion round-trip for canonical literals: `"42"` into an
int-kind field yields 42; `"true"` into a bool field yields `true`;
`"3.14"` into a float field yields 3.14; `"30s"` into a `time.Duration`
field is parsed with duration-literal syntax and yields 30 seconds (while
the same literal fails the bare integer parse of a plain `int64` field);
`"a,b,c"` into a `[]string` field yields `["a","b","c"]` by splitting on
`,`. -/
theorem c7_round_trip :
    convert "42" (.intF .int) = .ok (.intV 42)
    ∧ convert "true" .boolF = .ok (.boolV true)
    ∧ convert "3.14" (.floatF .float64) = .ok (.floatV (157 / 50))
    ∧ convert "30s" .duration = .ok (.durationV 30000000000)
    ∧ convert "30s" (.intF .int64) = .convError "int" "30s"
    ∧ convert "a,b,c" (.sliceF .stringElem) = .ok (.strSliceV ["a", "b", "c"]) := by
  refine ⟨by decide, by decide, ?_, by decide, by decide, by decide⟩
  simp [convert, parseFloatDec, parseMantissa, parseExpPart, spanDigits, digitsToNat]
  norm_num

/-- C6 counterexample: `convert` does panic for a sequence-typed field whose
element type is not `string` — the unconditional `reflect.Value.Set` of the
`[]string` produced by `strings.Split` is a type-mismatch panic. -/
theorem c6_slice_panic_cex :
    convert "a,b" (.sliceF (.otherElem "int")) =
      .panicked "reflect.Set: value of type []string is not assignable to type []int" := by
  decide

/-- C6 (amended): for every string value and target field type, `convert`
either assigns a typed value or returns an error; every parse failure
yields a ConversionError naming the attempted target kind and the offending
literal; an unrecognized kind yields an UnsupportedType error naming the
kind and the value; and `convert` never panics EXCEPT for a sequence-typed
field whose element type is not `string`, where the unconditional
assignment of the split `[]string` panics. -/
theorem c6_convert_total_amended (value : String) (ft : FieldType) :
    match convert value ft with
    | .ok _ => True
    | .convError t lit => lit = value ∧ t = errTarget ft
    | .unsupported k lit => lit = value ∧ ft = .otherF k
    | .panicked _ => ∃ n, ft = .sliceF (.otherElem n) := by
  cases ft with
  | stringF => simp [convert]
  | duration => cases h : parseDuration value <;> simp [convert, h, errTarget]
  | intF k => cases h : parseInt64 value <;> simp [convert, h, errTarget]
  | uintF k => cases h : parseUint64 value <;> simp [convert, h, errTarget]
  | boolF => cases h : parseBool value <;> simp [convert, h, errTarget]
  | floatF k => cases h : parseFloatDec value <;> simp [convert, h, errTarget]
  | complexF k => cases h : parseComplexDec value <;> simp [convert, h, errTarget]
  | sliceF e => cases e <;> simp [convert]
  | otherF n => simp [convert]

/-- C8 counterexample: `Bind` on the untyped nil argument does not return an
InvalidTarget error — `reflect.TypeOf(nil)` is the nil `Type` and the
`Kind()` call on it is a nil-pointer dereference, a runtime panic. -/
theorem c8_nil_target_cex :
    Bind .untypedNil [] "w" (fun _ => .missing) [] =
      .panicked "runtime error: invalid memory address or nil pointer dereference" := rfl

/-- C8 (amended): for every NON-NIL argument that is not a pointer to a
struct (not a pointer, a pointer to a non-struct, or a nil typed pointer),
`Bind` returns the InvalidTarget error immediately, attempts no file
loading, and performs no environment mutation; the untyped nil argument
instead panics (see the counterexample). -/
theorem c8_invalid_target_amended (k : ArgKind) (d : String) (rPath : List String)
    (cwd : String) (fs : String → FileStatus) (env : Env)
    (h : validateTarget (.ofType k) = .invalid d) :
    Bind (.ofType k) rPath cwd fs env = .ret (some (.invalidTarget d)) env [] [] := by
  unfold Bind
  rw [h]

/-- C8 witness: a plain non-pointer argument gets the InvalidTarget error
with the environment untouched. -/
theorem c8_invalid_target_witness :
    Bind (.ofType (.nonPtr "int")) [] "w" (fun _ => .missing) [("A", "x")] =
      .ret (some (.invalidTarget "expected a pointer to a struct, got int"))
        [("A", "x")] [] [] :=
  c8_invalid_target_amended (.nonPtr "int") "expected a pointer to a struct, got int"
    [] "w" (fun _ => .missing) [("A", "x")] rfl

/-- C10: the binder treats an environment variable whose value is the empty
string as absent — presence is tested with `os.Getenv(tag) != ""`, so a
tagged field whose variable is set to `""` gets no conversion attempt and
keeps its existing value (only the missing-variable warning is logged), and
an untagged field (empty tag, for which `os.Getenv` returns `""`) is never
modified. -/
theorem c10_empty_as_absent (env : Env) (f : StructField)
    (h : f.tag = "" ∨ lookupEnv env f.tag = some "") :
    bindField env f = .fok f ["Warning: Environment variable " ++ f.tag ++ " not found"]
    ∧ bindFields env [f] =
        .done [f] ["Warning: Environment variable " ++ f.tag ++ " not found"] := by
  have hval : getenv env f.tag = "" := by
    rcases h with h | h
    · simp [getenv, h]
    · unfold getenv
      by_cases ht : f.tag = ""
      · simp [ht]
      · simp [ht, h]
  have h1 : bindField env f = .fok f ["Warning: Environment variable " ++ f.tag ++ " not found"] := by
    unfold bindField
    simp [hval]
  exact ⟨h1, by simp [bindFields, h1]⟩

/-- C10 witness: a field whose variable is set to `""` keeps its pre-set
value, and an untagged field is untouched. -/
theorem c10_empty_as_absent_witness :
    bindField [("EMPTY", "")] ⟨"EMPTY", true, .intF .int, .intV 7⟩ =
      .fok ⟨"EMPTY", true, .intF .int, .intV 7⟩
        ["Warning: Environment variable EMPTY not found"]
    ∧ bindField [("EMPTY", "")] ⟨"", true, .boolF, .boolV true⟩ =
      .fok ⟨"", true, .boolF, .boolV true⟩
        ["Warning: Environment variable  not found"] :=
  ⟨(c10_empty_as_absent [("EMPTY", "")] ⟨"EMPTY", true, .intF .int, .intV 7⟩
      (Or.inr (by decide))).1,
   (c10_empty_as_absent [("EMPTY", "")] ⟨"", true, .boolF, .boolV true⟩
      (Or.inl rfl)).1⟩

/-! ### Invariants of the load phase -/

/-- A key already marked in `loadedVars` is untouched by one line step, and
stays marked. -/
theorem processLine_marked (env : Env) (loaded : List String) (line : String)
    (k : String) (hk : k ∈ loaded) :
    lookupEnv (processLine env loaded line).1 k = lookupEnv env k
    ∧ k ∈ (processLine env loaded line).2.1 := by
  unfold processLine
  cases h : parseLine line with
  | none => exact ⟨rfl, hk⟩
  | some p =>
    obtain ⟨k', v⟩ := p
    by_cases hmem : k' ∈ loaded
    · simp [hmem, hk]
    · by_cases hok : setenvOk k'
      · have hne : k' ≠ k := fun he => hmem (he ▸ hk)
        simp [hmem, hok, lookup_setenvRaw, hne, hk]
      · simp [hmem, hok, hk]

/-- A marked key is untouched by a whole line loop. -/
theorem runLines_marked (lines : List String) :
    ∀ (env : Env) (loaded : List String) (k : String), k ∈ loaded →
      lookupEnv (runLines env loaded lines).1 k = lookupEnv env k
      ∧ k ∈ (runLines env loaded lines).2.1 := by
  induction lines with
  | nil => intro env loaded k hk; exact ⟨rfl, hk⟩
  | cons line rest ih =>
    intro env loaded k hk
    have hp := processLine_marked env loaded line k hk
    unfold runLines
    rcases hpl : processLine env loaded line with ⟨env', loaded', e⟩
    rw [hpl] at hp
    cases e with
    | none =>
      have h2 := ih env' loaded' k hp.2
      exact ⟨h2.1.trans hp.1, h2.2⟩
    | some er => exact hp

/-- A marked key is untouched by one `load`. -/
theorem load_marked (fs : String → FileStatus) (path : String) (env : Env)
    (loaded : List String) (k : String) (hk : k ∈ loaded) :
    lookupEnv (load fs path env loaded).1 k = lookupEnv env k
    ∧ k ∈ (load fs path env loaded).2.1 := by
  cases hfs : fs path with
  | missing => simp [load, hfs, hk]
  | openFail m => simp [load, hfs, hk]
  | content lines scanErr =>
    have h := runLines_marked lines env loaded k hk
    rcases hrl : runLines env loaded lines with ⟨env', loaded', e⟩
    rw [hrl] at h
    simp only [load, hfs, hrl]
    cases e with
    | none => cases scanErr <;> simpa using h
    | some er => simpa using h

/-- A marked key is untouched by all remaining loads of the call. -/
theorem runLoads_marked (paths : List String) (fs : String → FileStatus) :
    ∀ (env : Env) (loaded : List String) (errs : List GoErr) (k : String),
      k ∈ loaded →
      lookupEnv (runLoads fs env loaded errs paths).1 k = lookupEnv env k
      ∧ k ∈ (runLoads fs env loaded errs paths).2.1 := by
  induction paths with
  | nil => intro env loaded errs k hk; exact ⟨rfl, hk⟩
  | cons p ps ih =>
    intro env loaded errs k hk
    have h := load_marked fs p env loaded k hk
    unfold runLoads
    rcases hl : load fs p env loaded with ⟨env', loaded', er⟩
    rw [hl] at h
    have h2 := ih env' loaded' (errs ++ er) k h.2
    exact ⟨h2.1.trans h.1, h2.2⟩

/-- The key committed by `parseLine` never contains `'='`. -/
theorem parseLine_key_no_eq (line : String) (k v : String)
    (h : parseLine line = some (k, v)) : '=' ∉ k.data := by
  unfold parseLine at h
  simp only [] at h
  by_cases hc : (decide ((trimL line.data).length = 0)
      || decide ((trimL line.data).take 1 = ['#'])) = true
  · rw [if_pos hc] at h; cases h
  · rw [if_neg hc] at h
    cases hs : splitFirstEq (trimL line.data) with
    | none => rw [hs] at h; cases h
    | some p =>
      rw [hs] at h
      obtain ⟨k0, v0⟩ := p
      simp only [Option.some.injEq, Prod.mk.injEq] at h
      have hk0 : '=' ∉ k0 := splitFirstEq_key_no_eq _ k0 v0 hs
      have hkd : k.data = trimL k0 := by rw [← h.1]
      rw [hkd]
      exact fun hm => hk0 (mem_trimL hm)

/-- C2: first-writer-wins commit rule. (a) A line whose key is already in
the shared `loadedVars` set changes nothing; (b) a line whose key is fresh
commits its value — regardless of any pre-existing process-environment
value for that key — and marks the key; (c) once a key is marked, no later
load of the same call changes its environment value, and the mark
persists. -/
theorem c2_first_writer_wins :
    (∀ (env : Env) (loaded : List String) (line k v : String),
       parseLine line = some (k, v) →
       ((k ∈ loaded → processLine env loaded line = (env, loaded, none))
        ∧ (k ∉ loaded → k ≠ "" →
             processLine env loaded line = (setenvRaw env k v, k :: loaded, none)
             ∧ lookupEnv (setenvRaw env k v) k = some v)))
    ∧ (∀ (fs : String → FileStatus) (paths : List String) (env : Env)
         (loaded : List String) (errs : List GoErr) (k : String),
         k ∈ loaded →
         lookupEnv (runLoads fs env loaded errs paths).1 k = lookupEnv env k
         ∧ k ∈ (runLoads fs env loaded errs paths).2.1) := by
  constructor
  · intro env loaded line k v hparse
    constructor
    · intro hk
      unfold processLine
      rw [hparse]
      simp [hk]
    · intro hk hke
      have hnoeq : '=' ∉ k.data := parseLine_key_no_eq line k v hparse
      have hok : setenvOk k = true := by
        unfold setenvOk
        simp [hke, hnoeq]
      unfold processLine
      rw [hparse]
      simp [hk, hok, lookup_setenvRaw]
  · intro fs paths env loaded errs k hk
    exact runLoads_marked paths fs env loaded errs k hk

/-- C2 witness: a marked key skips the commit; a fresh key overwrites a
value that pre-existed in the process environment before the call. -/
theorem c2_first_writer_wins_witness :
    processLine [("K", "old")] ["K"] "K=new" = ([("K", "old")], ["K"], none)
    ∧ processLine [("K", "old")] [] "K=new" = ([("K", "new")], ["K"], none)
    ∧ lookupEnv [("K", "new")] "K" = some "new" := by
  have h1 := (c2_first_writer_wins.1 [("K", "old")] ["K"] "K=new" "K" "new"
    (by decide)).1 (by decide)
  have h2 := (c2_first_writer_wins.1 [("K", "old")] [] "K=new" "K" "new"
    (by decide)).2 (by decide) (by decide)
  exact ⟨h1, h2.1.trans (by decide), h2.2.symm.trans (by decide)⟩

/-! ### Presence preservation (C9) -/

/-- A set variable stays set across one line step. -/
theorem processLine_presence (env : Env) (loaded : List String) (line : String)
    (k : String) (h : (lookupEnv env k).isSome) :
    (lookupEnv (processLine env loaded line).1 k).isSome := by
  unfold processLine
  cases hp : parseLine line with
  | none => exact h
  | some p =>
    obtain ⟨k', v⟩ := p
    by_cases hmem : k' ∈ loaded
    · simpa [hmem] using h
    · by_cases hok : setenvOk k'
      · by_cases hkk : k' = k
        · subst hkk
          simp [hmem, hok, lookup_setenvRaw]
        · simp [hmem, hok, lookup_setenvRaw, hkk, h]
      · simpa [hmem, hok] using h

/-- A set variable stays set across a line loop. -/
theorem runLines_presence (lines : List String) :
    ∀ (env : Env) (loaded : List String) (k : String),
      (lookupEnv env k).isSome →
      (lookupEnv (runLines env loaded lines).1 k).isSome := by
  induction lines with
  | nil => intro env loaded k h; exact h
  | cons line rest ih =>
    intro env loaded k h
    have hp := processLine_presence env loaded line k h
    unfold runLines
    rcases hpl : processLine env loaded line with ⟨env', loaded', e⟩
    rw [hpl] at hp
    cases e with
    | none => exact ih env' loaded' k hp
    | some er => exact hp

/-- A set variable stays set across one `load`. -/
theorem load_presence (fs : String → FileStatus) (path : String) (env : Env)
    (loaded : List String) (k : String) (h : (lookupEnv env k).isSome) :
    (lookupEnv (load fs path env loaded).1 k).isSome := by
  cases hfs : fs path with
  | missing => simpa [load, hfs] using h
  | openFail m => simpa [load, hfs] using h
  | content lines scanErr =>
    have h2 := runLines_presence lines env loaded k h
    rcases hrl : runLines env loaded lines with ⟨env', loaded', e⟩
    rw [hrl] at h2
    simp only [load, hfs, hrl]
    cases e with
    | none => cases scanErr <;> simpa using h2
    | some er => simpa using h2

/-- A set variable stays set across the whole load phase. -/
theorem runLoads_presence (paths : List String) (fs : String → FileStatus) :
    ∀ (env : Env) (loaded : List String) (errs : List GoErr) (k : String),
      (lookupEnv env k).isSome →
      (lookupEnv (runLoads fs env loaded errs paths).1 k).isSome := by
  induction paths with
  | nil => intro env loaded errs k h; exact h
  | cons p ps ih =>
    intro env loaded errs k h
    have h2 := load_presence fs p env loaded k h
    unfold runLoads
    rcases hl : load fs p env loaded with ⟨env', loaded', er⟩
    rw [hl] at h2
    exact ih env' loaded' (errs ++ er) k h2

/-- C9: process-environment growth invariant — a variable set before `Bind`
is still set (with some value) whenever `Bind` returns; the system never
removes an entry. -/
theorem c9_env_growth (arg : Arg) (rPath : List String) (cwd : String)
    (fs : String → FileStatus) (env : Env) (k : String)
    (h : (lookupEnv env k).isSome) :
    match Bind arg rPath cwd fs env with
    | .panicked _ => True
    | .ret _ env' _ _ => (lookupEnv env' k).isSome := by
  cases hv : validateTarget arg with
  | panicked m => simp [Bind, hv]
  | invalid d => simpa [Bind, hv] using h
  | okStruct fields =>
    have hp := runLoads_presence (bindPaths rPath cwd) fs env [] [] k h
    rcases hl : runLoads fs env [] [] (bindPaths rPath cwd) with ⟨env', loaded', errs⟩
    rw [hl] at hp
    simp only [Bind, loadPhase, hv, hl]
    cases hg : errs.getLast? with
    | some e => simpa using hp
    | none =>
      cases hb : bindFields env' fields with
      | panicked m => simp
      | done fields' logs => simpa using hp

/-- C9 witness: `HOME` set before the call is still set after a `Bind` that
loads a missing default file. -/
theorem c9_env_growth_witness :
    (match Bind (.ofType (.ptrToStruct [])) [] "w" (fun _ => .missing)
        [("HOME", "/root")] with
     | .panicked _ => True
     | .ret _ env' _ _ => (lookupEnv env' "HOME").isSome) :=
  c9_env_growth (.ofType (.ptrToStruct [])) [] "w" (fun _ => .missing)
    [("HOME", "/root")] "HOME" (by decide)

/-- C1: two-tier error policy of `Bind`. If the load phase collected no
channel error, `Bind` returns `nil` whenever the binding pass completes —
whatever warnings that pass logged; if the load phase collected errors,
`Bind` logs them all and returns the last one, with the field-binding pass
never performed (the fields are returned exactly as they were). -/
theorem c1_two_tier_policy (fields : List StructField) (rPath : List String)
    (cwd : String) (fs : String → FileStatus) (env : Env) :
    ((loadPhase fs env (bindPaths rPath cwd)).2.2 = [] →
      ∀ fields' logs,
        bindFields (loadPhase fs env (bindPaths rPath cwd)).1 fields = .done fields' logs →
        Bind (.ofType (.ptrToStruct fields)) rPath cwd fs env
          = .ret none (loadPhase fs env (bindPaths rPath cwd)).1 fields' logs)
    ∧ (∀ e, (loadPhase fs env (bindPaths rPath cwd)).2.2.getLast? = some e →
        Bind (.ofType (.ptrToStruct fields)) rPath cwd fs env
          = .ret (some e) (loadPhase fs env (bindPaths rPath cwd)).1 fields
              ((loadPhase fs env (bindPaths rPath cwd)).2.2.map errLog)) := by
  rcases hl : loadPhase fs env (bindPaths rPath cwd) with ⟨env', loaded', errs⟩
  constructor
  · intro herrs fields' logs hb
    have herrs' : errs = [] := herrs
    have hb' : bindFields env' fields = .done fields' logs := hb
    subst herrs'
    unfold loadPhase at hl
    simp [Bind, validateTarget, loadPhase, hl, hb']
  · intro e hg
    have hg' : errs.getLast? = some e := hg
    unfold loadPhase at hl
    simp [Bind, validateTarget, loadPhase, hl, hg']

/-- C1 witness. First scenario: the load phase succeeds and the binding
pass hits all three warning cases (conversion failure, missing variable,
unsettable field) — `Bind` still returns `nil`. Second scenario: a load
fails to open its file — the error is logged and returned and the fields
come back untouched. -/
theorem c1_two_tier_policy_witness :
    Bind (.ofType (.ptrToStruct
        [⟨"PORT", true, .intF .int, .intV 0⟩,
         ⟨"MISSING", true, .stringF, .str "keep"⟩,
         ⟨"PORT", false, .boolF, .boolV false⟩])) [] "w"
      (fun _ => .content ["PORT=abc"] none) []
      = .ret none [("PORT", "abc")]
          [⟨"PORT", true, .intF .int, .intV 0⟩,
           ⟨"MISSING", true, .stringF, .str "keep"⟩,
           ⟨"PORT", false, .boolF, .boolV false⟩]
          ["Warning: Could not convert env variable PORT to field type",
           "Warning: Environment variable MISSING not found",
           "Warning: Field PORT cannot be set (maybe it is unexported)"]
    ∧ Bind (.ofType (.ptrToStruct [⟨"X", true, .stringF, .str ""⟩])) ["d"] "w"
        (fun _ => .openFail "permission denied") [("A", "x")]
        = .ret (some (.openErr "d/.env" "permission denied")) [("A", "x")]
            [⟨"X", true, .stringF, .str ""⟩]
            ["Error opening .env file d/.env: permission denied"] :=
  ⟨(c1_two_tier_policy
      [⟨"PORT", true, .intF .int, .intV 0⟩,
       ⟨"MISSING", true, .stringF, .str "keep"⟩,
       ⟨"PORT", false, .boolF, .boolV false⟩] [] "w"
      (fun _ => .content ["PORT=abc"] none) []).1 rfl _ _ rfl,
   (c1_two_tier_policy [⟨"X", true, .stringF, .str ""⟩] ["d"] "w"
      (fun _ => .openFail "permission denied") [("A", "x")]).2
      (.openErr "d/.env" "permission denied") rfl⟩

/-! ### Expansion lemmas (C4, C5) -/

/-- `splitClose` recovers the brace-free name before the first `\x7d`. -/
theorem splitClose_append (nm rest : List Char) (h : '\x7d' ∉ nm) :
    splitClose (nm ++ '\x7d' :: rest) = some (nm, rest) := by
  induction nm with
  | nil => simp [splitClose]
  | cons c t ih =>
    have hc : ¬ (c = '\x7d') := fun he => h (by simp [he])
    have ht : '\x7d' ∉ t := fun hm => h (List.mem_cons_of_mem _ hm)
    simp [splitClose, hc, ih ht]

/-- Whatever the loop of `expandVariables` returns is a fixpoint of the
substitution pass — the loop's only exit is a pass that changed nothing. -/
theorem expandLoop_fix (env : Env) :
    ∀ (fuel : Nat) (cur w : String),
      expandLoop env cur fuel = some w → expandOnce env w = w := by
  intro fuel
  induction fuel with
  | zero => intro cur w h; cases h
  | succ n ih =>
    intro cur w h
    unfold expandLoop at h
    by_cases hc : expandOnce env cur = cur
    · have hcw : cur = w := by simpa [hc] using h
      subst hcw
      exact hc
    · simp only [hc, if_false] at h
      exact ih _ w (by simpa [hc] using h)

/-- C4: expansion semantics. (a) A fresh `KEY=VALUE` line commits the
expanded value `w` produced by the substitution loop, not the raw value;
(b) the committed result is a fixpoint of the substitution pass (passes are
repeated until one produces no change); (c) one pass leaves a placeholder
literal when its variable is unset ( `os.Getenv` returned `""`) and
continues after it; (d) one pass replaces a placeholder by the variable's
value when it is set non-empty; (e) the value `"${A}/${B}"` with `A=x`,
`B=y` pre-set expands to `"x/y"`. -/
theorem c4_expansion :
    (∀ (fuel : Nat) (env : Env) (loaded : List String) (line k v w : String),
       parseLine line = some (k, v) → expandVal env v fuel = some w →
       k ∉ loaded → k ≠ "" →
       loadLinesX fuel env loaded [line] = some (setenvRaw env k w, k :: loaded, none))
    ∧ (∀ (env : Env) (s : String) (fuel : Nat) (w : String),
       expandVal env s fuel = some w → expandOnce env w = w)
    ∧ (∀ (env : Env) (c : Char) (nm rest : List Char),
       '\x7d' ∉ c :: nm →
       getenv env (String.mk (c :: nm)) = "" →
       expandOnceAux env ('$' :: '\x7b' :: ((c :: nm) ++ '\x7d' :: rest))
         = '$' :: '\x7b' :: ((c :: nm) ++ '\x7d' :: expandOnceAux env rest))
    ∧ (∀ (env : Env) (c : Char) (nm rest : List Char) (v : String),
       '\x7d' ∉ c :: nm →
       getenv env (String.mk (c :: nm)) = v → v ≠ "" →
       expandOnceAux env ('$' :: '\x7b' :: ((c :: nm) ++ '\x7d' :: rest))
         = v.data ++ expandOnceAux env rest)
    ∧ expandVal [("A", "x"), ("B", "y")] "$\x7bA\x7d/$\x7bB\x7d" 1 = some "x/y" := by
  refine ⟨?_, fun env s fuel w h => expandLoop_fix env fuel (expandOnce env s) w h, ?_, ?_, ?_⟩
  · intro fuel env loaded line k v w hparse hw hk hke
    have hnoeq : '=' ∉ k.data := parseLine_key_no_eq line k v hparse
    have hok : setenvOk k = true := by
      unfold setenvOk
      simp [hke, hnoeq]
    simp [loadLinesX, hparse, hw, hk, hok]
  · intro env c nm rest hnb hv
    have hs : splitClose ((c :: nm) ++ '\x7d' :: rest) = some (c :: nm, rest) :=
      splitClose_append (c :: nm) rest hnb
    simp only [expandOnceAux]
    split
    · rename_i heq
      rw [hs] at heq; cases heq
    · rename_i snd heq
      rw [hs] at heq; simp at heq
    · rename_i c1 nm1 rest' heq
      rw [hs] at heq
      simp only [Option.some.injEq, Prod.mk.injEq, List.cons.injEq] at heq
      obtain ⟨⟨hc1, hnm1⟩, hrest⟩ := heq
      subst hc1
      subst hnm1
      subst hrest
      simp [hv]
  · intro env c nm rest v hnb hv hvne
    have hs : splitClose ((c :: nm) ++ '\x7d' :: rest) = some (c :: nm, rest) :=
      splitClose_append (c :: nm) rest hnb
    simp only [expandOnceAux]
    split
    · rename_i heq
      rw [hs] at heq; cases heq
    · rename_i snd heq
      rw [hs] at heq; simp at heq
    · rename_i c1 nm1 rest' heq
      rw [hs] at heq
      simp only [Option.some.injEq, Prod.mk.injEq, List.cons.injEq] at heq
      obtain ⟨⟨hc1, hnm1⟩, hrest⟩ := heq
      subst hc1
      subst hnm1
      subst hrest
      simp [hv, hvne]
  · simp [expandVal, expandLoop, expandOnce, expandOnceAux, splitClose, getenv, lookupEnv]

/-- C4 witness: each conditional part applied at a concrete input — the
commit of an expanded value over a pre-existing environment, a pass with no
placeholder, an unset placeholder kept literal, a set placeholder
replaced. -/
theorem c4_expansion_witness :
    loadLinesX 1 [("A", "x")] [] ["K=$\x7bA\x7d"] = some ([("A", "x"), ("K", "x")], ["K"], none)
    ∧ expandOnce [] "q" = "q"
    ∧ expandOnceAux [] ('$' :: '\x7b' :: (['A'] ++ '\x7d' :: []))
        = '$' :: '\x7b' :: (['A'] ++ '\x7d' :: expandOnceAux [] [])
    ∧ expandOnceAux [("A", "x")] ('$' :: '\x7b' :: (['A'] ++ '\x7d' :: []))
        = "x".data ++ expandOnceAux [("A", "x")] [] :=
  ⟨c4_expansion.1 1 [("A", "x")] [] "K=$\x7bA\x7d" "K" "$\x7bA\x7d" "x"
      (by decide)
      (by simp [expandVal, expandLoop, expandOnce, expandOnceAux, splitClose, getenv, lookupEnv])
      (by decide) (by decide),
   c4_expansion.2.1 [] "q" 1 "q"
      (by simp [expandVal, expandLoop, expandOnce, expandOnceAux]),
   c4_expansion.2.2.1 [] 'A' [] [] (by decide) rfl,
   c4_expansion.2.2.2.1 [("A", "x")] 'A' [] [] "x" (by decide) rfl (by decide)⟩

/-- One cyclic pass: with `A=${B}` set, one pass sends `${A}` to `${B}`. -/
theorem cyc_once_a :
    expandOnce [("A", "$\x7bB\x7d"), ("B", "$\x7bA\x7d")] "$\x7bA\x7d" = "$\x7bB\x7d" := by
  simp [expandOnce, expandOnceAux, splitClose, getenv, lookupEnv]

/-- One cyclic pass the other way. -/
theorem cyc_once_b :
    expandOnce [("A", "$\x7bB\x7d"), ("B", "$\x7bA\x7d")] "$\x7bB\x7d" = "$\x7bA\x7d" := by
  simp [expandOnce, expandOnceAux, splitClose, getenv, lookupEnv]

/-- On the cyclic environment the loop alternates between the two
placeholders and never stabilizes, whatever its budget. -/
theorem cyc_loop_none :
    ∀ (fuel : Nat) (s : String), s = "$\x7bA\x7d" ∨ s = "$\x7bB\x7d" →
      expandLoop [("A", "$\x7bB\x7d"), ("B", "$\x7bA\x7d")] s fuel = none := by
  intro fuel
  induction fuel with
  | zero => intro s _; rfl
  | succ n ih =>
    intro s hs
    rcases hs with h | h <;> subst h
    · unfold expandLoop
      rw [cyc_once_a]
      simp only [show ("$\x7bB\x7d" = "$\x7bA\x7d") = False by simp, if_false]
      exact ih _ (Or.inr rfl)
    · unfold expandLoop
      rw [cyc_once_b]
      simp only [show ("$\x7bA\x7d" = "$\x7bB\x7d") = False by simp, if_false]
      exact ih _ (Or.inl rfl)

/-- C5 counterexample: with `A=${B}` and `B=${A}` pre-set, expanding the
value `${A}` does not stabilize within 1000 passes (nor within any budget:
see the amended theorem) — the Go loop, which has no bound at all, runs
forever, and no cyclic-reference error exists in the code. -/
theorem c5_cyclic_divergence_cex :
    expandVal [("A", "$\x7bB\x7d"), ("B", "$\x7bA\x7d")] "$\x7bA\x7d" 1000 = none := by
  unfold expandVal
  rw [cyc_once_a]
  exact cyc_loop_none 1000 _ (Or.inr rfl)

/-- C5 (amended): expansion does NOT terminate on every input — the
fixpoint iteration of `expandVariables` is unbounded, and there is an
environment and a value (a cyclic placeholder reference) on which no
iteration budget ever reaches a fixpoint, so the Go loop runs forever; no
cyclic-reference error is surfaced. -/
theorem c5_unbounded_amended :
    ∃ (env : Env) (s : String), ∀ fuel : Nat, expandVal env s fuel = none :=
  ⟨[("A", "$\x7bB\x7d"), ("B", "$\x7bA\x7d")], "$\x7bA\x7d", fun fuel => by
    unfold expandVal
    rw [cyc_once_a]
    exact cyc_loop_none fuel _ (Or.inr rfl)⟩


end Envar
